import Mathlib

/-!
Verification of the Diet Analysis application core.

The embedding below translates the Python source of the repository:
* `functions_nutrition/DietAnalysisFunction/__init__.py` — the precompute
  pipeline (`_parse_float`, `_clean_and_summarize`, `main`);
* `functions_nutrition/GetDietResults/__init__.py` — the cached-results
  read service with its two-stage fallback;
* `app.py` — the analytics request handler (the `insights`, `recipes`
  and `clusters` actions of `index`).

Modelling conventions:
* Python floats are rationals (`Rat`).
* Python dicts (insertion-ordered) are association lists with
  insertion-order update semantics (`alistSet` updates in place,
  appends fresh keys).
* pandas `sort_values` / sorted group keys are modelled with a stable
  insertion sort; Python string comparison is code-point lexicographic.
* Python strings are handled through their character lists so that all
  operations are structurally recursive.
-/

namespace DietAnalysis

/-! ## Small Python-semantics helpers -/

/-- Python string truthiness: a string is falsy iff empty; `none` models a
missing value (`None`). -/
def truthy : Option String → Bool
  | none => false
  | some s => decide (s.data ≠ [])

/-- Python `a or b` on optional strings. -/
def pyOr (a b : Option String) : Option String :=
  if truthy a then a else b

/-- Python `a or default` where `default` is a (truthy) string literal. -/
def pyOrStr (a : Option String) (default : String) : String :=
  if truthy a then a.getD default else default

/-- Python `str.strip()` (both-ends whitespace removal) on a char list. -/
def pyStrip (l : List Char) : List Char :=
  ((l.dropWhile Char.isWhitespace).reverse.dropWhile Char.isWhitespace).reverse

/-- Python `str.lower()` on a single character, as a code point (ASCII
letters are shifted by 32; everything else is unchanged). -/
def lowerCode (c : Char) : Nat :=
  if 65 ≤ c.toNat ∧ c.toNat ≤ 90 then c.toNat + 32 else c.toNat

/-- Code-point lexicographic `≤` on char lists: the comparison Python (and
hence pandas `sort_values` on a string column) uses. -/
def lexLe : List Char → List Char → Bool
  | [], _ => true
  | _ :: _, [] => false
  | a :: as, b :: bs =>
    if a.toNat < b.toNat then true
    else if b.toNat < a.toNat then false
    else lexLe as bs

/-- String `≤` via `lexLe`. -/
def strLe (a b : String) : Bool := lexLe a.data b.data

/-- Stable insertion into a sorted list: the new element goes after every
element `y` with `le y x` (so equal elements keep their original order). -/
def insertSorted (le : α → α → Bool) (x : α) : List α → List α
  | [] => [x]
  | y :: ys => if le y x then y :: insertSorted le x ys else x :: y :: ys

/-- Stable sort (models pandas `sort_values` and `sorted`). -/
def stableSort (le : α → α → Bool) (l : List α) : List α :=
  l.foldl (fun acc x => insertSorted le x acc) []

/-- First-seen deduplication of a list of keys. -/
def firstSeen (l : List String) : List String :=
  l.foldl (fun acc d => if d ∈ acc then acc else acc ++ [d]) []

/-- Association-list lookup (Python `dict.get`): first binding wins. -/
def alistGet (l : List (String × β)) (k : String) : Option β :=
  match l with
  | [] => none
  | (k', v) :: t => if k' = k then some v else alistGet t k

/-- Association-list update (Python `d[k] = v`): replaces the first binding
of `k` in place, appends a fresh key at the end — insertion-order
semantics of Python dicts. -/
def alistSet (l : List (String × β)) (k : String) (v : β) : List (String × β) :=
  match l with
  | [] => [(k, v)]
  | (k', v') :: t => if k' = k then (k, v) :: t else (k', v') :: alistSet t k v

/-! ## Numeric parsing (model of Python `float(...)` on decimal literals)

The model accepts optional sign, decimal digits with an optional
fractional part and an optional exponent.  (CPython additionally accepts
the spellings `nan`/`inf`, which have no rational value and are outside
this model.) -/

/-- Consume leading decimal digits: accumulated value, number of digits
consumed, rest of the input. -/
def takeDigits (acc n : Nat) : List Char → Nat × Nat × List Char
  | [] => (acc, n, [])
  | c :: cs =>
    if c.isDigit then takeDigits (acc * 10 + (c.toNat - 48)) (n + 1) cs
    else (acc, n, c :: cs)

/-- Exponent suffix: digits after `e`/`E` and an optional sign. -/
def applyExp (v : Rat) (neg : Bool) (ds : List Char) : Option Rat :=
  let (e, n, rest) := takeDigits 0 0 ds
  if n = 0 ∨ rest ≠ [] then none
  else some (if neg then v / 10 ^ e else v * 10 ^ e)

/-- Optional exponent part of a float literal. -/
def parseExpPart (v : Rat) : List Char → Option Rat
  | [] => some v
  | 'e' :: '+' :: ds => applyExp v false ds
  | 'e' :: '-' :: ds => applyExp v true ds
  | 'e' :: ds => applyExp v false ds
  | 'E' :: '+' :: ds => applyExp v false ds
  | 'E' :: '-' :: ds => applyExp v true ds
  | 'E' :: ds => applyExp v false ds
  | _ => none

/-- Unsigned float literal: digits, optional `.` and fraction, optional
exponent.  At least one digit must appear around the dot. -/
def parseUnsigned (cs : List Char) : Option Rat :=
  let (ip, ni, rest) := takeDigits 0 0 cs
  match rest with
  | '.' :: rest2 =>
    let (fp, nf, rest3) := takeDigits 0 0 rest2
    if ni = 0 ∧ nf = 0 then none
    else parseExpPart ((ip : Rat) + (fp : Rat) / 10 ^ nf) rest3
  | _ => if ni = 0 then none else parseExpPart (ip : Rat) rest

/-- Model of Python `float(s)` on the characters of a string: `none` models
the `ValueError` branch. -/
def floatOfString (cs : List Char) : Option Rat :=
  match cs with
  | '+' :: rest => parseUnsigned rest
  | '-' :: rest => (parseUnsigned rest).map Neg.neg
  | _ => parseUnsigned cs

/-! ## Dataset Normalizer

`_parse_float` from `DietAnalysisFunction/__init__.py`:
```python
def _parse_float(s):
    try:
        if s is None: return 0.0
        s = str(s).strip()
        if not s: return 0.0
        return float(s)
    except Exception:
        return 0.0
```
A missing CSV field is modelled as `none`; the `except` branch is the
`none` result of `floatOfString`. -/

/-- Best-effort float parse; returns 0.0 on bad/missing values
(`_parse_float`). -/
def parse_float (s : Option String) : Rat :=
  match s with
  | none => 0
  | some str =>
    let t := pyStrip str.data
    if t = [] then 0
    else
      match floatOfString t with
      | some v => v
      | none => 0

/-- `app.py` lines 108–111: `pd.to_numeric(col, errors="coerce")` followed
by `.fillna(0)` on a macro cell: an unparsable or missing cell coerces to
NaN and is then replaced by 0 (`to_numeric` accepts surrounding
whitespace). -/
def toNumericFillZero (s : Option String) : Rat :=
  match s with
  | none => 0
  | some str =>
    match floatOfString (pyStrip str.data) with
    | some v => v
    | none => 0

/-! ## Data model of the in-memory dataset (`raw_df` rows in `app.py`) -/

/-- One normalized row of `All_Diets.csv` as used by the dashboard. -/
structure Recipe where
  diet_type : String
  recipe_name : String
  cuisine_type : String
  protein : Rat
  carbs : Rat
  fat : Rat
deriving DecidableEq, Repr

/-! ## Recipe Search & Pager (`app.py`, `action == "recipes"`) -/

/-- `Series.str.contains(keyword, case=False, na=False)` treats the keyword
as a regular expression (`regex=True` is the pandas default) and matches it
case-insensitively anywhere in the string.  The model covers literal
characters and the `.` wildcard (code 46); matching is over lowered code
points. -/
def patMatchHere : List Nat → List Nat → Bool
  | [], _ => true
  | _ :: _, [] => false
  | p :: ps, c :: cs => (decide (p = 46) || decide (p = c)) && patMatchHere ps cs

/-- `re.search`: try the pattern at every start position. -/
def patSearchAux (pat : List Nat) : List Nat → Bool
  | [] => patMatchHere pat []
  | c :: cs => patMatchHere pat (c :: cs) || patSearchAux pat cs

/-- Case-insensitive pandas `str.contains` (regex semantics). -/
def pyContainsCI (pat s : String) : Bool :=
  patSearchAux (pat.data.map lowerCode) (s.data.map lowerCode)

/-- Literal (non-regex) matching at a position. -/
def litMatchHere : List Nat → List Nat → Bool
  | [], _ => true
  | _ :: _, [] => false
  | p :: ps, c :: cs => decide (p = c) && litMatchHere ps cs

/-- Literal substring search. -/
def litSearchAux (pat : List Nat) : List Nat → Bool
  | [] => litMatchHere pat []
  | c :: cs => litMatchHere pat (c :: cs) || litSearchAux pat cs

/-- Case-insensitive substring test (the spec's reading of the keyword
match). -/
def substrCI (pat s : String) : Bool :=
  litSearchAux (pat.data.map lowerCode) (s.data.map lowerCode)

/-- Regex metacharacters of Python `re`, as code points:
`. * + ? [ ] ( ) { } | ^ $ \`. -/
def isRegexMeta (c : Char) : Bool :=
  c.toNat ∈ [46, 42, 43, 63, 91, 93, 40, 41, 123, 125, 124, 94, 36, 92]

/-- The keyword filter of the `recipes` action (`app.py` lines 269–274): a
non-empty keyword keeps rows whose `Recipe_name` OR `Cuisine_type` matches
case-insensitively; an empty keyword skips the filter. -/
def searchFilter (records : List Recipe) (keyword : String) : List Recipe :=
  if keyword = "" then records
  else records.filter (fun r =>
    pyContainsCI keyword r.recipe_name || pyContainsCI keyword r.cuisine_type)

/-- Follows the spec's words for the keyword filter: case-insensitive
*substring* of `recipe_name` OR `cuisine_type` (to be compared with
`searchFilter`, which has regex semantics). -/
def searchFilterSpec (records : List Recipe) (keyword : String) : List Recipe :=
  if keyword = "" then records
  else records.filter (fun r =>
    substrCI keyword r.recipe_name || substrCI keyword r.cuisine_type)

/-- Result of the `recipes` action: display lines, `total_pages` and the
(possibly clamped) page. -/
structure PageResult where
  message : List String
  total_pages : Nat
  page : Int
deriving DecidableEq, Repr

/-- `app.py` lines 264–301 (`action == "recipes"`): keyword filter, sort by
`Recipe_name`, fixed page size 10, clamping, slicing and display lines. -/
def recipes_action (records : List Recipe) (keyword : String) (page : Int) : PageResult :=
  let rec_df := searchFilter records keyword
  let total := rec_df.length
  if total = 0 then
    ⟨["No recipes found for your search."], 1, 1⟩
  else
    let sorted := stableSort (fun a b => strLe a.recipe_name b.recipe_name) rec_df
    let total_pages := max 1 ((total + 10 - 1) / 10)
    let page1 : Int := if page < 1 then 1 else page
    let page2 : Int := if page1 > (total_pages : Int) then (total_pages : Int) else page1
    let start := ((page2 - 1) * 10).toNat
    let lines := ((sorted.drop start).take 10).map (fun r =>
      r.recipe_name ++ " (" ++ r.diet_type ++ ", " ++ r.cuisine_type ++ ")")
    ⟨lines, total_pages, page2⟩

/-! ## Macro-Dominance Classifier (`app.py`, `action == "clusters"`) -/

/-- Python `max(iterable, key=...)`: scans left to right and replaces the
current best only on a strictly larger key, so the first maximal element
wins. -/
def pyMaxFirst : List (String × Rat) → Option (String × Rat)
  | [] => none
  | x :: xs => some (xs.foldl (fun best y => if best.2 < y.2 then y else best) x)

/-- `label_row` (`app.py` lines 308–314): arg-max over the dict
`{"protein": ..., "carbs": ..., "fat": ...}` in its insertion order. -/
def label_row (p c f : Rat) : String :=
  match pyMaxFirst [("protein", p), ("carbs", c), ("fat", f)] with
  | some kv => kv.1
  | none => ""

/-! ## Aggregation Engine (`app.py`, `action == "insights"`) -/

/-- Group keys of `df.groupby("Diet_type")`: pandas sorts the distinct keys
ascending (the default `sort=True`). -/
def dietKeys (rs : List Recipe) : List String :=
  stableSort strLe (firstSeen (rs.map (fun r => r.diet_type)))

/-- Per-group arithmetic mean of the three macros. -/
def groupMean (rs : List Recipe) (d : String) : Rat × Rat × Rat :=
  let g := rs.filter (fun r => r.diet_type = d)
  let n : Rat := g.length
  (((g.map (fun r => r.protein)).sum) / n,
   ((g.map (fun r => r.carbs)).sum) / n,
   ((g.map (fun r => r.fat)).sum) / n)

/-- `groupby("Diet_type")[macros].mean()` followed by
`sort_values("Protein(g)", ascending=False)` (`app.py` lines 222–226):
keys come out of the groupby sorted ascending, then a stable descending
sort on mean protein. -/
def groupMeans (rs : List Recipe) : List (String × (Rat × Rat × Rat)) :=
  stableSort (fun a b => decide (b.2.1 ≤ a.2.1))
    ((dietKeys rs).map (fun d => (d, groupMean rs d)))

/-- Follows the spec's words for the `groupMeans` ordering: groups listed
in *first-seen* diet-type order, then stably sorted by descending mean
protein (to be compared with `groupMeans`). -/
def groupMeansSpecOrdered (rs : List Recipe) : List (String × (Rat × Rat × Rat)) :=
  stableSort (fun a b => decide (b.2.1 ≤ a.2.1))
    ((firstSeen (rs.map (fun r => r.diet_type))).map (fun d => (d, groupMean rs d)))

/-- Second-moment statistics behind `df[[macros]].corr()` (pandas Pearson):
per-macro variance sums and pairwise covariance sums.  The final Pearson
normalization divides by square roots, which leaves ℚ; the claim under
study only concerns *when* the matrix is computed. -/
structure CorrStats where
  varP : Rat
  varC : Rat
  varF : Rat
  covPC : Rat
  covPF : Rat
  covCF : Rat
deriving DecidableEq, Repr

/-- Mean of a rational list. -/
def ratMean (l : List Rat) : Rat := l.sum / l.length

/-- Covariance sum Σ (x-mean x)(y-mean y) over paired samples. -/
def covSum (xs ys : List Rat) : Rat :=
  ((xs.zip ys).map (fun p => (p.1 - ratMean xs) * (p.2 - ratMean ys))).sum

/-- The statistics feeding the correlation heatmap. -/
def corrStats (rs : List Recipe) : CorrStats :=
  let ps := rs.map (fun r => r.protein)
  let cs := rs.map (fun r => r.carbs)
  let fs := rs.map (fun r => r.fat)
  ⟨covSum ps ps, covSum cs cs, covSum fs fs, covSum ps cs, covSum ps fs, covSum cs fs⟩

/-- `app.py` lines 250–255: the correlation matrix (and its heatmap chart)
is produced only under `df_filtered.shape[0] > 1`. -/
def insights_heatmap (rs : List Recipe) : Option CorrStats :=
  if rs.length > 1 then some (corrStats rs) else none

/-! ## Precompute Pipeline (`DietAnalysisFunction/__init__.py`) -/

/-- A raw CSV row from `csv.DictReader`: header name → cell string. -/
def RawRow : Type := List (String × String)

/-- A cell of a cleaned row: original string columns are kept, the three
macro columns become floats. -/
inductive CellVal where
  | str (s : String)
  | num (q : Rat)
deriving DecidableEq, Repr

/-- `row.get("Diet_type") or row.get("Diet Type") or "Unknown"`. -/
def rowDiet (row : RawRow) : String :=
  pyOrStr (pyOr (alistGet row "Diet_type") (alistGet row "Diet Type")) "Unknown"

/-- `row.get(k1) or row.get(k2)` — the two tolerated header spellings of a
macro column. -/
def rowMacroRaw (row : RawRow) (k1 k2 : String) : Option String :=
  pyOr (alistGet row k1) (alistGet row k2)

/-- The normalized copy of a raw row (`cleaned_row = dict(row)` plus the
four overwritten keys). -/
def cleanedRowOf (row : RawRow) : List (String × CellVal) :=
  let base := row.map (fun p => (p.1, CellVal.str p.2))
  let r1 := alistSet base "Diet_type" (CellVal.str (rowDiet row))
  let r2 := alistSet r1 "Protein(g)"
    (CellVal.num (parse_float (rowMacroRaw row "Protein(g)" "Protein (g)")))
  let r3 := alistSet r2 "Carbs(g)"
    (CellVal.num (parse_float (rowMacroRaw row "Carbs(g)" "Carbs (g)")))
  alistSet r3 "Fat(g)"
    (CellVal.num (parse_float (rowMacroRaw row "Fat(g)" "Fat (g)")))

/-- Per-diet macro sums. -/
structure Macros where
  protein : Rat
  carbs : Rat
  fat : Rat
deriving DecidableEq, Repr

/-- The pipeline's Summary Artifact. -/
structure Summaries where
  avg_macros_by_diet : List (String × Macros)
  recipe_counts_by_diet : List (String × Nat)
deriving DecidableEq, Repr

/-- One iteration of the row loop of `_clean_and_summarize`: normalize the
row, initialize the accumulators for a fresh diet type, and bump sums and
count. -/
def stepRow (acc : List (List (String × CellVal)) × List (String × Macros) × List (String × Nat))
    (row : RawRow) :
    List (List (String × CellVal)) × List (String × Macros) × List (String × Nat) :=
  let (cleaned, sums0, counts0) := acc
  let d := rowDiet row
  let p := parse_float (rowMacroRaw row "Protein(g)" "Protein (g)")
  let c := parse_float (rowMacroRaw row "Carbs(g)" "Carbs (g)")
  let f := parse_float (rowMacroRaw row "Fat(g)" "Fat (g)")
  let (sums1, counts1) :=
    match alistGet sums0 d with
    | none => (alistSet sums0 d ⟨0, 0, 0⟩, alistSet counts0 d 0)
    | some _ => (sums0, counts0)
  let cur := (alistGet sums1 d).getD ⟨0, 0, 0⟩
  let sums2 := alistSet sums1 d ⟨cur.protein + p, cur.carbs + c, cur.fat + f⟩
  let counts2 := alistSet counts1 d ((alistGet counts1 d).getD 0 + 1)
  (cleaned ++ [cleanedRowOf row], sums2, counts2)

/-- `_clean_and_summarize`: single pass accumulating per-diet sums and
counts, then averages (`count = max(1, counts[diet])`) and the counts
map. -/
def clean_and_summarize (rows : List RawRow) :
    List (List (String × CellVal)) × Summaries :=
  let acc := rows.foldl stepRow ([], [], [])
  let avg_macros := acc.2.1.map (fun e =>
    (e.1,
      let n : Nat := max 1 ((alistGet acc.2.2 e.1).getD 0)
      Macros.mk (e.2.protein / (n : Rat)) (e.2.carbs / (n : Rat)) (e.2.fat / (n : Rat))))
  let recipe_counts := acc.2.2.map (fun e => (e.1, e.2))
  (acc.1, ⟨avg_macros, recipe_counts⟩)

/-- JSON text of the per-diet averages object. -/
def dumpsMacros (m : Macros) : String :=
  "\x7b\"Protein(g)\": " ++ toString m.protein ++ ", \"Carbs(g)\": " ++ toString m.carbs ++
    ", \"Fat(g)\": " ++ toString m.fat ++ "\x7d"

/-- JSON text of a string-keyed object. -/
def dumpsStrMap (f : β → String) (l : List (String × β)) : String :=
  "\x7b" ++ String.intercalate ", " (l.map (fun e => "\"" ++ e.1 ++ "\": " ++ f e.2)) ++ "\x7d"

/-- `json.dumps(summaries)` (`main`, step 4b): a deterministic rendering of
the Summary Artifact in dict insertion order. -/
def dumpsSummaries (s : Summaries) : String :=
  "\x7b\"avg_macros_by_diet\": " ++ dumpsStrMap dumpsMacros s.avg_macros_by_diet ++
    ", \"recipe_counts_by_diet\": " ++ dumpsStrMap toString s.recipe_counts_by_diet ++ "\x7d"

/-! ## Cached Results Service (`GetDietResults/__init__.py`) -/

/-- Outcome of the HTTP read path: a 200 with provenance and data, the 404
"Cached results not found", or an exception escaping the handler. -/
inductive ServiceOutcome (α : Type) where
  | success (source : String) (data : α)
  | notFound
  | unhandledError
deriving DecidableEq, Repr

/-- The read path of `GetDietResults.main`.  `blobDownload` is the byte
content from durable storage (`none` models any fetch failure: not-found
or connectivity); `localFile` is the local mirror content (`none` models
`FileNotFoundError`); `deserialize` models `json.loads`/`json.load`
(`none` models a decode error).

The outer `try` covers the blob fetch *and* its deserialization; its
`except Exception` falls through to the local file.  The inner `try`
catches only `FileNotFoundError` — a decode error on an existing local
file escapes the handler. -/
def getDietResults {α : Type} (deserialize : String → Option α)
    (blobDownload : Option String) (localFile : Option String) : ServiceOutcome α :=
  match blobDownload.bind deserialize with
  | some d => .success "blob" d
  | none =>
    match localFile with
    | none => .notFound
    | some content =>
      match deserialize content with
      | some d => .success "local" d
      | none => .unhandledError

/-! ## Orders used to state the presentation ordering of `groupMeans` -/

/-- Strict code-point order on strings. -/
def keyLt (a b : String) : Prop := strLe a b = true ∧ a ≠ b

/-- Presentation order of `groupMeans` rows: larger mean protein first;
rows with equal mean protein in ascending diet-type order. -/
def GroupOrder (e1 e2 : String × (Rat × Rat × Rat)) : Prop :=
  e2.2.1 ≤ e1.2.1 ∧ (e1.2.1 = e2.2.1 → keyLt e1.1 e2.1)

/-! ## Concrete sample data (used in closed instances of the theorems) -/

/-- A plain recipe row. -/
def sampleRecipe : Recipe := ⟨"keto", "r", "c", 0, 0, 0⟩

/-- Two diet types in reverse alphabetical first-seen order with equal
protein: exercises the `groupMeans` tie-break. -/
def tieRecipes : List Recipe :=
  [⟨"b", "r1", "c", 5, 0, 0⟩, ⟨"a", "r2", "c", 5, 0, 0⟩]

/-- A recipe whose name matches the regex `a.c` but contains no `a.c`
substring. -/
def dotRecipe : Recipe := ⟨"keto", "Abc", "x", 0, 0, 0⟩

/-- A raw CSV row with one diet type. -/
def sampleRawRow : RawRow := [("Diet_type", "keto"), ("Protein(g)", "5")]

/-! # Theorems -/

/-- C1: for every raw input row, normalizing a macro field whose value is
missing (`none`), empty after trimming, or not numerically parsable yields
exactly 0 for that field — for both the pipeline's `_parse_float` and the
dashboard's `to_numeric`/`fillna` normalization.  Both normalizers are
total functions, so no error reaches the caller, and the result is the
rational 0, never a NaN. -/
theorem parse_float_bad_input (s : Option String)
    (h : s = none ∨ ∃ str, s = some str ∧
      (pyStrip str.data = [] ∨ floatOfString (pyStrip str.data) = none)) :
    parse_float s = 0 ∧ toNumericFillZero s = 0 := by
  rcases h with rfl | ⟨str, rfl, h⟩
  · exact ⟨rfl, rfl⟩
  · rcases h with h | h
    · refine ⟨by simp [parse_float, h], ?_⟩
      have hnone : floatOfString (pyStrip str.data) = none := by
        rw [h]; rfl
      simp [toNumericFillZero, hnone]
    · have hne : parse_float (some str) = 0 := by
        simp only [parse_float]
        split_ifs with he
        · rfl
        · simp [h]
      exact ⟨hne, by simp [toNumericFillZero, h]⟩

/-- C1 witness: the concrete unparsable field `" abc "` normalizes to 0. -/
theorem parse_float_bad_input_check :
    parse_float (some " abc ") = 0 ∧ toNumericFillZero (some " abc ") = 0 :=
  parse_float_bad_input (some " abc ") (Or.inr ⟨" abc ", rfl, Or.inr (by decide)⟩)

/-- C8: the correlation statistics (and hence the heatmap chart) are
produced iff the filtered subset has at least 2 records; for fewer than 2
records nothing is computed. -/
theorem insights_heatmap_guard (rs : List Recipe) :
    insights_heatmap rs = none ↔ rs.length < 2 := by
  unfold insights_heatmap
  split_ifs with h
  · simp; omega
  · simp; omega

/-- C9: the clean-and-summarize step and its JSON serialization are pure
functions of the input rows, so two pipeline runs on identical input
produce a byte-identical serialized Summary Artifact (and an identical
cleaned dataset). -/
theorem pipeline_deterministic (rows₁ rows₂ : List RawRow) (h : rows₁ = rows₂) :
    dumpsSummaries (clean_and_summarize rows₁).2 = dumpsSummaries (clean_and_summarize rows₂).2 ∧
    (clean_and_summarize rows₁).1 = (clean_and_summarize rows₂).1 := by
  subst h; exact ⟨rfl, rfl⟩

/-- C9 witness: determinism at a concrete input. -/
theorem pipeline_deterministic_check :
    dumpsSummaries (clean_and_summarize [sampleRawRow]).2 =
      dumpsSummaries (clean_and_summarize [sampleRawRow]).2 ∧
    (clean_and_summarize [sampleRawRow]).1 = (clean_and_summarize [sampleRawRow]).1 :=
  pipeline_deterministic [sampleRawRow] [sampleRawRow] rfl

/-- C3 counterexample: a fetch satisfied by durable (blob) storage is
tagged `"blob"`, not `"durable"` as the claim states. -/
theorem provenance_tag_counterexample :
    getDietResults (fun s => some s) (some "\x7b\x7d") none =
      ServiceOutcome.success "blob" "\x7b\x7d" ∧ "blob" ≠ "durable" :=
  ⟨rfl, by decide⟩

/-- C3 amended: every successful response is tagged exactly `"blob"` when
the summary came from durable storage and exactly `"local"` when it came
from the local mirror file; no other tag occurs. -/
theorem provenance_tag_values {α : Type} (deserialize : String → Option α)
    (blob localFile : Option String) :
    (∀ d, blob.bind deserialize = some d →
      getDietResults deserialize blob localFile = .success "blob" d) ∧
    (blob.bind deserialize = none → ∀ content d, localFile = some content →
      deserialize content = some d →
      getDietResults deserialize blob localFile = .success "local" d) ∧
    (∀ src d, getDietResults deserialize blob localFile = .success src d →
      src = "blob" ∨ src = "local") := by
  refine ⟨?_, ?_, ?_⟩
  · intro d hd
    simp [getDietResults, hd]
  · intro hb content d hc hd
    subst hc
    simp [getDietResults, hb, hd]
  · intro src d h
    unfold getDietResults at h
    rcases hb : blob.bind deserialize with _ | v
    · rw [hb] at h
      rcases localFile with _ | content
      · simp at h
      · rcases hd : deserialize content with _ | v₂
        · simp [hd] at h
        · simp [hd] at h
          exact Or.inr h.1.symm
    · rw [hb] at h
      simp at h
      exact Or.inl h.1.symm

/-- C3 witness: a durable-storage hit is tagged `"blob"`. -/
theorem provenance_tag_values_check :
    getDietResults (fun s => some s) (some "x") none = ServiceOutcome.success "blob" "x" :=
  (provenance_tag_values (fun s => some s) (some "x") none).1 "x" rfl

/-- C4 counterexample: when durable storage fails and the local mirror
exists but fails to deserialize, the handler raises (only
`FileNotFoundError` is caught) instead of returning the not-found
outcome the claim requires. -/
theorem fallback_exhaustion_counterexample :
    getDietResults (fun _ => (none : Option Unit)) none (some "not json") =
      ServiceOutcome.unhandledError ∧
    getDietResults (fun _ => (none : Option Unit)) none (some "not json") ≠
      ServiceOutcome.notFound :=
  ⟨rfl, by decide⟩

/-- C4 amended: the read first tries durable storage; on any failure of
that stage it tries the local mirror; a *missing* mirror yields the
not-found outcome, but a mirror that exists and fails to deserialize
propagates an exception. -/
theorem fallback_behavior {α : Type} (deserialize : String → Option α)
    (blob localFile : Option String) :
    (∀ d, blob.bind deserialize = some d →
      getDietResults deserialize blob localFile = .success "blob" d) ∧
    (blob.bind deserialize = none → localFile = none →
      getDietResults deserialize blob localFile = .notFound) ∧
    (blob.bind deserialize = none → ∀ content, localFile = some content →
      deserialize content = none →
      getDietResults deserialize blob localFile = .unhandledError) ∧
    (blob.bind deserialize = none → ∀ content d, localFile = some content →
      deserialize content = some d →
      getDietResults deserialize blob localFile = .success "local" d) := by
  refine ⟨?_, ?_, ?_, ?_⟩
  · intro d hd
    simp [getDietResults, hd]
  · intro hb hl
    simp [getDietResults, hb, hl]
  · intro hb content hc hd
    subst hc
    simp [getDietResults, hb, hd]
  · intro hb content d hc hd
    subst hc
    simp [getDietResults, hb, hd]

/-- C4 witness: both stages missing yields the not-found outcome. -/
theorem fallback_behavior_check :
    getDietResults (fun _ => (none : Option Unit)) none none = ServiceOutcome.notFound :=
  (fallback_behavior (fun _ => (none : Option Unit)) none none).2.1 rfl rfl

/-- C5: the macro-dominance classifier picks the strictly largest of
protein, carbs and fat, and resolves ties to the earlier entry in the
fixed order protein, carbs, fat; in particular all-equal macros classify
as `"protein"`. -/
theorem label_row_argmax :
    (∀ p c f : Rat,
      (c ≤ p ∧ f ≤ p → label_row p c f = "protein") ∧
      (p < c ∧ f ≤ c → label_row p c f = "carbs") ∧
      (p < f ∧ c < f → label_row p c f = "fat")) ∧
    (∀ q : Rat, label_row q q q = "protein") := by
  have main : ∀ p c f : Rat,
      (c ≤ p ∧ f ≤ p → label_row p c f = "protein") ∧
      (p < c ∧ f ≤ c → label_row p c f = "carbs") ∧
      (p < f ∧ c < f → label_row p c f = "fat") := by
    intro p c f
    unfold label_row pyMaxFirst
    simp only [List.foldl_cons, List.foldl_nil]
    dsimp only
    refine ⟨?_, ?_, ?_⟩ <;> intro h <;> split_ifs <;>
      first
        | rfl
        | (exfalso; obtain ⟨h1, h2⟩ := h; linarith)
  exact ⟨main, fun q => (main q q q).1 ⟨le_refl q, le_refl q⟩⟩

/-- C5 witness: a strict protein maximum and an all-equal tie. -/
theorem label_row_argmax_check :
    label_row 3 2 1 = "protein" ∧ label_row 7 7 7 = "protein" :=
  ⟨(label_row_argmax.1 3 2 1).1 ⟨by norm_num, by norm_num⟩, label_row_argmax.2 7⟩

/-- C2: recipe pagination uses fixed page size 10 with
`total_pages = max 1 ⌈total/10⌉` and silently clamps the requested page
into `[1, total_pages]`; zero matches give one page, page 1 and a single
"no results" message; 23 matches give 3 pages, page 99 clamps to 3 and
page 0 clamps to 1. -/
theorem recipes_pagination :
    (∀ (records : List Recipe) (kw : String) (page : Int),
      (recipes_action records kw page).total_pages =
        max 1 (((searchFilter records kw).length + 9) / 10) ∧
      1 ≤ (recipes_action records kw page).page ∧
      (recipes_action records kw page).page ≤ ((recipes_action records kw page).total_pages : Int) ∧
      ((searchFilter records kw).length = 0 →
        (recipes_action records kw page).message = ["No recipes found for your search."] ∧
        (recipes_action records kw page).total_pages = 1 ∧
        (recipes_action records kw page).page = 1)) ∧
    (recipes_action (List.replicate 23 sampleRecipe) "" 99).total_pages = 3 ∧
    (recipes_action (List.replicate 23 sampleRecipe) "" 99).page = 3 ∧
    (recipes_action (List.replicate 23 sampleRecipe) "" 0).page = 1 ∧
    recipes_action [] "" 5 = ⟨["No recipes found for your search."], 1, 1⟩ := by
  refine ⟨?_, ?_, ?_, ?_, ?_⟩
  · intro records kw page
    simp only [recipes_action]
    by_cases h : (searchFilter records kw).length = 0
    · rw [if_pos h]
      refine ⟨by simp [h], by simp, by simp, fun _ => ⟨rfl, rfl, rfl⟩⟩
    · rw [if_neg h]
      dsimp only
      have h10 : (searchFilter records kw).length + 10 - 1 =
          (searchFilter records kw).length + 9 := by omega
      rw [h10]
      have htp : 1 ≤ max 1 (((searchFilter records kw).length + 9) / 10) := le_max_left _ _
      generalize hm : max 1 (((searchFilter records kw).length + 9) / 10) = tp at htp ⊢
      refine ⟨rfl, ?_, ?_, fun h0 => absurd h0 h⟩
      · split_ifs <;> omega
      · split_ifs <;> omega
  · simp [recipes_action, searchFilter]
  · simp [recipes_action, searchFilter]
  · simp [recipes_action, searchFilter]
  · simp [recipes_action, searchFilter]

/-- A pattern without the code point 46 (`.`) matches like a literal. -/
theorem patMatchHere_eq_lit (pat : List Nat) (h : 46 ∉ pat) (s : List Nat) :
    patMatchHere pat s = litMatchHere pat s := by
  induction pat generalizing s with
  | nil => cases s <;> rfl
  | cons p ps ih =>
    cases s with
    | nil => rfl
    | cons c cs =>
      have hp : p ≠ 46 := fun hp => h (by simp [hp])
      simp [patMatchHere, litMatchHere, hp,
        ih (fun hm => h (List.mem_cons_of_mem _ hm))]

/-- Searching with a dot-free pattern is literal substring search. -/
theorem patSearchAux_eq_lit (pat : List Nat) (h : 46 ∉ pat) (s : List Nat) :
    patSearchAux pat s = litSearchAux pat s := by
  induction s with
  | nil => simp [patSearchAux, litSearchAux, patMatchHere_eq_lit pat h]
  | cons c cs ih => simp [patSearchAux, litSearchAux, patMatchHere_eq_lit pat h, ih]

/-- Lowercasing a non-metacharacter never produces the dot code point. -/
theorem lowerCode_ne_46 {c : Char} (h : isRegexMeta c = false) : lowerCode c ≠ 46 := by
  intro hl
  unfold lowerCode at hl
  split_ifs at hl with hc
  · omega
  · have ht : isRegexMeta c = true := by
      unfold isRegexMeta
      rw [hl]
      decide
    rw [ht] at h
    simp at h

/-- For metacharacter-free keywords, pandas `str.contains` agrees with
case-insensitive substring search. -/
theorem pyContainsCI_eq_substrCI (kw : String)
    (hk : kw.data.all (fun c => !isRegexMeta c) = true) (s : String) :
    pyContainsCI kw s = substrCI kw s := by
  apply patSearchAux_eq_lit
  intro hm
  rcases List.mem_map.1 hm with ⟨c, hc, hl⟩
  have hmeta := List.all_eq_true.1 hk c hc
  exact lowerCode_ne_46 (by simpa using hmeta) hl

/-- The empty pattern matches every string. -/
theorem litSearchAux_nil (s : List Nat) : litSearchAux [] s = true := by
  cases s <;> simp [litSearchAux, litMatchHere]

/-- C7 counterexample: the keyword `"a.c"` retains a record whose fields
contain no `a.c` substring (the filter applies regex semantics, in which
`.` matches any character of `"Abc"`). -/
theorem keyword_regex_counterexample :
    searchFilter [dotRecipe] "a.c" = [dotRecipe] ∧
    searchFilterSpec [dotRecipe] "a.c" = [] := by
  constructor <;> decide

/-- C7 amended: an empty keyword retains every record; for every keyword
free of regex metacharacters the filter retains exactly the records where
the keyword is a case-insensitive substring of `recipe_name` OR
`cuisine_type`; keywords containing metacharacters are interpreted as
regular expressions instead. -/
theorem keyword_search_or_semantics :
    (∀ records : List Recipe, searchFilter records "" = records) ∧
    (∀ (records : List Recipe) (kw : String),
      kw.data.all (fun c => !isRegexMeta c) = true →
      searchFilter records kw = records.filter (fun r =>
        substrCI kw r.recipe_name || substrCI kw r.cuisine_type)) := by
  constructor
  · intro records
    simp [searchFilter]
  · intro records kw hk
    unfold searchFilter
    split_ifs with he
    · subst he
      have hs : ∀ s : String, substrCI "" s = true := fun s => litSearchAux_nil _
      simp [hs]
    · exact List.filter_congr (fun r _ => by
        rw [pyContainsCI_eq_substrCI kw hk, pyContainsCI_eq_substrCI kw hk])

/-- C7 witness: the metacharacter-free keyword `"ab"` filters by
substring. -/
theorem keyword_search_or_semantics_check :
    searchFilter [dotRecipe] "ab" = List.filter (fun r =>
      substrCI "ab" r.recipe_name || substrCI "ab" r.cuisine_type) [dotRecipe] :=
  keyword_search_or_semantics.2 [dotRecipe] "ab" (by decide)

/-! ### Association-list (Python dict) lemmas -/

/-- A lookup misses iff the key is absent. -/
theorem alistGet_eq_none {β : Type} (l : List (String × β)) (k : String) :
    alistGet l k = none ↔ k ∉ l.map Prod.fst := by
  induction l with
  | nil => simp [alistGet]
  | cons e t ih =>
    obtain ⟨k', v⟩ := e
    by_cases h : k' = k
    · subst h
      simp [alistGet]
    · have h' : ¬ k = k' := fun e => h e.symm
      simp [alistGet, h, h', ih]

/-- Updating an existing key keeps the key list; a fresh key is appended. -/
theorem map_fst_alistSet {β : Type} (l : List (String × β)) (k : String) (v : β) :
    (alistSet l k v).map Prod.fst =
      if k ∈ l.map Prod.fst then l.map Prod.fst else l.map Prod.fst ++ [k] := by
  induction l with
  | nil => simp [alistSet]
  | cons e t ih =>
    obtain ⟨k', v'⟩ := e
    by_cases h : k' = k
    · subst h
      simp [alistSet]
    · have h' : ¬ k = k' := fun e => h e.symm
      simp only [alistSet, if_neg h, List.map_cons, ih, List.mem_cons]
      by_cases hm : k ∈ t.map Prod.fst
      · simp [hm, h']
      · simp [hm, h']

/-- Membership in an updated dict with distinct keys: the new binding, or
an old binding of a different key. -/
theorem mem_alistSet_nodup {β : Type} (l : List (String × β)) (k : String) (v : β)
    (hn : (l.map Prod.fst).Nodup) (e : String × β) :
    e ∈ alistSet l k v ↔ e = (k, v) ∨ (e ∈ l ∧ e.1 ≠ k) := by
  induction l with
  | nil => simp [alistSet]
  | cons x t ih =>
    obtain ⟨k', v'⟩ := x
    simp only [List.map_cons, List.nodup_cons] at hn
    by_cases h : k' = k
    · have halist : alistSet ((k', v') :: t) k v = (k, v) :: t := by
        simp [alistSet, h]
      rw [halist]
      simp only [List.mem_cons]
      constructor
      · rintro (rfl | he)
        · exact Or.inl rfl
        · refine Or.inr ⟨Or.inr he, fun hek => hn.1 ?_⟩
          rw [← h] at hek
          exact hek ▸ List.mem_map_of_mem Prod.fst he
      · rintro (rfl | ⟨he, hne⟩)
        · exact Or.inl rfl
        · rcases he with he | he
          · exact absurd (by rw [he]; exact h) hne
          · exact Or.inr he
    · simp only [alistSet, if_neg h, List.mem_cons, ih hn.2]
      constructor
      · rintro (rfl | (rfl | ⟨he, hne⟩))
        · exact Or.inr ⟨Or.inl rfl, h⟩
        · exact Or.inl rfl
        · exact Or.inr ⟨Or.inr he, hne⟩
      · rintro (rfl | ⟨(rfl | he), hne⟩)
        · exact Or.inr (Or.inl rfl)
        · exact Or.inl rfl
        · exact Or.inr (Or.inr ⟨he, hne⟩)

/-! ### The accumulator invariant of `_clean_and_summarize` -/

/-- One `stepRow` preserves: equal key lists of sums and counts, distinct
keys, all counts at least 1; and it adds exactly the row's diet type to
the key set. -/
theorem stepRow_inv (cleaned : List (List (String × CellVal)))
    (sums : List (String × Macros)) (counts : List (String × Nat)) (row : RawRow)
    (h1 : sums.map Prod.fst = counts.map Prod.fst)
    (h2 : (counts.map Prod.fst).Nodup)
    (h3 : ∀ e ∈ counts, 1 ≤ e.2) :
    ((stepRow (cleaned, sums, counts) row).2.1.map Prod.fst =
      (stepRow (cleaned, sums, counts) row).2.2.map Prod.fst) ∧
    (((stepRow (cleaned, sums, counts) row).2.2.map Prod.fst).Nodup) ∧
    (∀ e ∈ (stepRow (cleaned, sums, counts) row).2.2, 1 ≤ e.2) ∧
    (∀ d, d ∈ (stepRow (cleaned, sums, counts) row).2.2.map Prod.fst ↔
      d ∈ counts.map Prod.fst ∨ d = rowDiet row) := by
  rcases hg : alistGet sums (rowDiet row) with _ | v
  · -- fresh diet type: both accumulators get the key appended, then updated
    have hd : rowDiet row ∉ counts.map Prod.fst := by
      rw [← h1]
      exact (alistGet_eq_none sums (rowDiet row)).1 hg
    have hds : rowDiet row ∉ sums.map Prod.fst := by rw [h1]; exact hd
    have hks : (alistSet sums (rowDiet row) ⟨0, 0, 0⟩).map Prod.fst =
        sums.map Prod.fst ++ [rowDiet row] := by
      rw [map_fst_alistSet, if_neg hds]
    have hkc : (alistSet counts (rowDiet row) 0).map Prod.fst =
        counts.map Prod.fst ++ [rowDiet row] := by
      rw [map_fst_alistSet, if_neg hd]
    have hmem_s : rowDiet row ∈ (alistSet sums (rowDiet row) ⟨0, 0, 0⟩).map Prod.fst := by
      rw [hks]; simp
    have hmem_c : rowDiet row ∈ (alistSet counts (rowDiet row) 0).map Prod.fst := by
      rw [hkc]; simp
    have hnc : ((alistSet counts (rowDiet row) 0).map Prod.fst).Nodup := by
      rw [hkc]
      simp [List.nodup_append, h2, hd]
    simp only [stepRow, hg]
    refine ⟨?_, ?_, ?_, ?_⟩
    · rw [map_fst_alistSet, if_pos hmem_s, hks, map_fst_alistSet, if_pos hmem_c, hkc, h1]
    · rw [map_fst_alistSet, if_pos hmem_c]
      exact hnc
    · intro e he
      rw [mem_alistSet_nodup _ _ _ hnc] at he
      rcases he with rfl | ⟨he, hne⟩
      · exact Nat.succ_le_succ (Nat.zero_le _)
      · rw [mem_alistSet_nodup _ _ _ h2] at he
        rcases he with rfl | ⟨he, _⟩
        · exact absurd rfl hne
        · exact h3 e he
    · intro d
      rw [map_fst_alistSet, if_pos hmem_c, hkc]
      simp
  · -- already-seen diet type: in-place updates keep the key lists
    have hd : rowDiet row ∈ sums.map Prod.fst := by
      by_contra hc
      have := (alistGet_eq_none sums (rowDiet row)).2 hc
      rw [hg] at this
      exact Option.noConfusion this
    have hdc : rowDiet row ∈ counts.map Prod.fst := by rw [← h1]; exact hd
    simp only [stepRow, hg]
    refine ⟨?_, ?_, ?_, ?_⟩
    · rw [map_fst_alistSet, if_pos hd, h1, map_fst_alistSet, if_pos hdc]
    · rw [map_fst_alistSet, if_pos hdc]
      exact h2
    · intro e he
      rw [mem_alistSet_nodup _ _ _ h2] at he
      rcases he with rfl | ⟨he, _⟩
      · exact Nat.succ_le_succ (Nat.zero_le _)
      · exact h3 e he
    · intro d
      rw [map_fst_alistSet, if_pos hdc]
      constructor
      · exact Or.inl
      · rintro (hm | rfl)
        · exact hm
        · exact hdc

/-- The whole summarization fold preserves the invariant and collects
exactly the diet types of the processed rows. -/
theorem stepRow_fold_inv (rows : List RawRow) :
    ∀ (cleaned : List (List (String × CellVal))) (sums : List (String × Macros))
      (counts : List (String × Nat)),
      sums.map Prod.fst = counts.map Prod.fst →
      (counts.map Prod.fst).Nodup →
      (∀ e ∈ counts, 1 ≤ e.2) →
      ((rows.foldl stepRow (cleaned, sums, counts)).2.1.map Prod.fst =
        (rows.foldl stepRow (cleaned, sums, counts)).2.2.map Prod.fst) ∧
      ((rows.foldl stepRow (cleaned, sums, counts)).2.2.map Prod.fst).Nodup ∧
      (∀ e ∈ (rows.foldl stepRow (cleaned, sums, counts)).2.2, 1 ≤ e.2) ∧
      (∀ d, d ∈ (rows.foldl stepRow (cleaned, sums, counts)).2.2.map Prod.fst ↔
        d ∈ counts.map Prod.fst ∨ ∃ row ∈ rows, rowDiet row = d) := by
  induction rows with
  | nil =>
    intro cleaned sums counts h1 h2 h3
    exact ⟨h1, h2, h3, by simp⟩
  | cons row rest ih =>
    intro cleaned sums counts h1 h2 h3
    rw [List.foldl_cons]
    obtain ⟨s1, s2, s3, s4⟩ := stepRow_inv cleaned sums counts row h1 h2 h3
    obtain ⟨f1, f2, f3, f4⟩ := ih (stepRow (cleaned, sums, counts) row).1
      (stepRow (cleaned, sums, counts) row).2.1 (stepRow (cleaned, sums, counts) row).2.2
      s1 s2 s3
    refine ⟨f1, f2, f3, fun d => ⟨?_, ?_⟩⟩
    · intro hm
      rcases (f4 d).1 hm with hm' | ⟨r, hr, hd⟩
      · rcases (s4 d).1 hm' with hm'' | rfl
        · exact Or.inl hm''
        · exact Or.inr ⟨row, List.mem_cons_self row rest, rfl⟩
      · exact Or.inr ⟨r, List.mem_cons_of_mem row hr, hd⟩
    · rintro (hm | ⟨r, hr, hd⟩)
      · exact (f4 d).2 (Or.inl ((s4 d).2 (Or.inl hm)))
      · rcases List.mem_cons.1 hr with rfl | hr'
        · exact (f4 d).2 (Or.inl ((s4 d).2 (Or.inr hd.symm)))
        · exact (f4 d).2 (Or.inr ⟨r, hr', hd⟩)

/-- Re-keying a map entry-wise while keeping the first component keeps the
key list. -/
theorem map_fst_of_eq {β γ : Type} (l : List (String × β)) (g : String × β → String × γ)
    (h : ∀ e, (g e).1 = e.1) : (l.map g).map Prod.fst = l.map Prod.fst := by
  induction l with
  | nil => rfl
  | cons x t ih => simp [h, ih]

/-- The averages map has the key list of the accumulated sums. -/
theorem clean_avg_keys (rows : List RawRow) :
    (clean_and_summarize rows).2.avg_macros_by_diet.map Prod.fst =
      (rows.foldl stepRow ([], [], [])).2.1.map Prod.fst := by
  simp only [clean_and_summarize]
  exact map_fst_of_eq _ _ (fun e => rfl)

/-- The counts map has the key list of the accumulated counts. -/
theorem clean_counts_keys (rows : List RawRow) :
    (clean_and_summarize rows).2.recipe_counts_by_diet.map Prod.fst =
      (rows.foldl stepRow ([], [], [])).2.2.map Prod.fst := by
  simp only [clean_and_summarize]
  exact map_fst_of_eq _ _ (fun e => rfl)

/-- C10: in every Summary Artifact the maps `avg_macros_by_diet` and
`recipe_counts_by_diet` have exactly the same key list — one entry per
diet type appearing in at least one input row, no duplicates — and every
recorded count is at least 1. -/
theorem summaries_key_invariants (rows : List RawRow) :
    ((clean_and_summarize rows).2.avg_macros_by_diet.map Prod.fst =
      (clean_and_summarize rows).2.recipe_counts_by_diet.map Prod.fst) ∧
    (((clean_and_summarize rows).2.recipe_counts_by_diet.map Prod.fst).Nodup) ∧
    (∀ d, d ∈ (clean_and_summarize rows).2.recipe_counts_by_diet.map Prod.fst ↔
      ∃ row ∈ rows, rowDiet row = d) ∧
    (∀ e ∈ (clean_and_summarize rows).2.recipe_counts_by_diet, 1 ≤ e.2) := by
  obtain ⟨m1, m2, m3, m4⟩ := stepRow_fold_inv rows [] [] [] rfl (by simp) (by simp)
  refine ⟨?_, ?_, ?_, ?_⟩
  · rw [clean_avg_keys, clean_counts_keys, m1]
  · rw [clean_counts_keys]
    exact m2
  · intro d
    rw [clean_counts_keys, m4 d]
    simp
  · intro e he
    simp only [clean_and_summarize, List.mem_map] at he
    obtain ⟨e', he', rfl⟩ := he
    exact m3 e' he'

/-- C10 witness: a one-row input records its diet type. -/
theorem summaries_key_invariants_check :
    "keto" ∈ (clean_and_summarize [sampleRawRow]).2.recipe_counts_by_diet.map Prod.fst :=
  ((summaries_key_invariants [sampleRawRow]).2.2.1 "keto").2
    ⟨sampleRawRow, by simp, by decide⟩

/-! ### Stable-sort lemmas -/

/-- Membership after a stable insertion. -/
theorem mem_insertSorted {α : Type} (le : α → α → Bool) (x : α) (l : List α) (a : α) :
    a ∈ insertSorted le x l ↔ a = x ∨ a ∈ l := by
  induction l with
  | nil => simp [insertSorted]
  | cons y ys ih =>
    simp only [insertSorted]
    split_ifs
    · rw [List.mem_cons, ih, List.mem_cons]
      tauto
    · rw [List.mem_cons]

/-- A stable insertion is a permutation of consing. -/
theorem insertSorted_perm {α : Type} (le : α → α → Bool) (x : α) (l : List α) :
    (insertSorted le x l).Perm (x :: l) := by
  induction l with
  | nil => exact List.Perm.refl _
  | cons y ys ih =>
    simp only [insertSorted]
    split_ifs
    · exact (ih.cons y).trans (List.Perm.swap x y ys)
    · exact List.Perm.refl _

/-- The stable sort permutes its input. -/
theorem stableSort_perm {α : Type} (le : α → α → Bool) (l : List α) :
    (stableSort le l).Perm l := by
  suffices h : ∀ (l acc : List α),
      (l.foldl (fun acc x => insertSorted le x acc) acc).Perm (acc ++ l) by
    simpa [stableSort] using h l []
  intro l
  induction l with
  | nil => intro acc; simp
  | cons x xs ih =>
    intro acc
    rw [List.foldl_cons]
    refine (ih (insertSorted le x acc)).trans ?_
    have p1 : (insertSorted le x acc ++ xs).Perm ((x :: acc) ++ xs) :=
      (insertSorted_perm le x acc).append_right xs
    have p2 : ((x :: acc) ++ xs).Perm (acc ++ x :: xs) := List.perm_middle.symm
    exact p1.trans p2

/-- Stable insertion preserves sortedness for a total transitive
comparator. -/
theorem pairwise_insertSorted {α : Type} (le : α → α → Bool)
    (total : ∀ a b, le a b = true ∨ le b a = true)
    (htrans : ∀ a b c, le a b = true → le b c = true → le a c = true)
    (x : α) (l : List α) (h : l.Pairwise (fun a b => le a b = true)) :
    (insertSorted le x l).Pairwise (fun a b => le a b = true) := by
  induction l with
  | nil => simp [insertSorted]
  | cons y ys ih =>
    rcases List.pairwise_cons.1 h with ⟨hy, hys⟩
    simp only [insertSorted]
    split_ifs with hle
    · refine List.pairwise_cons.2 ⟨?_, ih hys⟩
      intro z hz
      rcases (mem_insertSorted le x ys z).1 hz with rfl | hz'
      · exact hle
      · exact hy z hz'
    · refine List.pairwise_cons.2 ⟨?_, h⟩
      intro z hz
      rcases List.mem_cons.1 hz with rfl | hz'
      · exact (total x z).resolve_right (fun h' => hle h')
      · exact htrans x y z ((total x y).resolve_right (fun h' => hle h')) (hy z hz')

/-- The stable sort sorts, for a total transitive comparator. -/
theorem pairwise_stableSort {α : Type} (le : α → α → Bool)
    (total : ∀ a b, le a b = true ∨ le b a = true)
    (htrans : ∀ a b c, le a b = true → le b c = true → le a c = true)
    (l : List α) :
    (stableSort le l).Pairwise (fun a b => le a b = true) := by
  suffices h : ∀ (l acc : List α), acc.Pairwise (fun a b => le a b = true) →
      (l.foldl (fun acc x => insertSorted le x acc) acc).Pairwise
        (fun a b => le a b = true) by
    exact h l [] (by simp)
  intro l
  induction l with
  | nil => intro acc h; simpa using h
  | cons x xs ih =>
    intro acc h
    rw [List.foldl_cons]
    exact ih _ (pairwise_insertSorted le total htrans x acc h)

/-! ### `firstSeen` and string-order lemmas -/

/-- First-seen deduplication: no duplicates, same members. -/
theorem firstSeen_spec (l : List String) :
    (firstSeen l).Nodup ∧ ∀ a, a ∈ firstSeen l ↔ a ∈ l := by
  suffices h : ∀ (l acc : List String), acc.Nodup →
      ((l.foldl (fun acc d => if d ∈ acc then acc else acc ++ [d]) acc).Nodup ∧
        ∀ a, a ∈ l.foldl (fun acc d => if d ∈ acc then acc else acc ++ [d]) acc ↔
          a ∈ acc ∨ a ∈ l) by
    obtain ⟨hn, hm⟩ := h l [] List.nodup_nil
    exact ⟨hn, fun a => by rw [firstSeen, hm a]; simp⟩
  intro l
  induction l with
  | nil =>
    intro acc h
    exact ⟨h, fun a => by simp⟩
  | cons x xs ih =>
    intro acc h
    rw [List.foldl_cons]
    by_cases hx : x ∈ acc
    · rw [if_pos hx]
      obtain ⟨n, m⟩ := ih acc h
      refine ⟨n, fun a => ?_⟩
      rw [m a, List.mem_cons]
      constructor
      · rintro (ha | ha)
        · exact Or.inl ha
        · exact Or.inr (Or.inr ha)
      · rintro (ha | rfl | ha)
        · exact Or.inl ha
        · exact Or.inl hx
        · exact Or.inr ha
    · rw [if_neg hx]
      obtain ⟨n, m⟩ := ih (acc ++ [x]) (by simp [List.nodup_append, h, hx])
      refine ⟨n, fun a => ?_⟩
      rw [m a]
      simp only [List.mem_append, List.mem_cons, List.not_mem_nil, or_false]
      tauto

/-- Code-point lexicographic order is total. -/
theorem lexLe_total (a : List Char) : ∀ b, lexLe a b = true ∨ lexLe b a = true := by
  induction a with
  | nil => intro b; exact Or.inl rfl
  | cons x xs ih =>
    intro b
    cases b with
    | nil => exact Or.inr rfl
    | cons y ys =>
      simp only [lexLe]
      by_cases h1 : x.toNat < y.toNat
      · left; simp [h1]
      · by_cases h2 : y.toNat < x.toNat
        · right; simp [h2]
        · rcases ih ys with h | h
          · left; simp [h1, h2, h]
          · right; simp [h1, h2, h]

/-- Code-point lexicographic order is transitive. -/
theorem lexLe_trans (a : List Char) :
    ∀ b c, lexLe a b = true → lexLe b c = true → lexLe a c = true := by
  induction a with
  | nil => intro b c _ _; rfl
  | cons x xs ih =>
    intro b c hab hbc
    cases b with
    | nil => simp [lexLe] at hab
    | cons y ys =>
      cases c with
      | nil => simp [lexLe] at hbc
      | cons z zs =>
        simp only [lexLe] at hab hbc ⊢
        split_ifs at hab with h1 h2
        · split_ifs at hbc with h3 h4
          · simp [show x.toNat < z.toNat by omega]
          · simp [show x.toNat < z.toNat by omega]
        · split_ifs at hbc with h3 h4
          · simp [show x.toNat < z.toNat by omega]
          · have hxz : ¬ x.toNat < z.toNat := by omega
            have hzx : ¬ z.toNat < x.toNat := by omega
            simp only [if_neg hxz, if_neg hzx]
            exact ih ys zs hab hbc

/-- `strLe` is total. -/
theorem strLe_total (a b : String) : strLe a b = true ∨ strLe b a = true :=
  lexLe_total a.data b.data

/-- `strLe` is transitive. -/
theorem strLe_trans (a b c : String) :
    strLe a b = true → strLe b c = true → strLe a c = true :=
  lexLe_trans a.data b.data c.data

/-! ### The `groupMeans` ordering -/

/-- The diet keys of a grouping are pairwise strictly increasing. -/
theorem dietKeys_pairwise (rs : List Recipe) : (dietKeys rs).Pairwise keyLt := by
  have hs : (dietKeys rs).Pairwise (fun a b => strLe a b = true) :=
    pairwise_stableSort strLe strLe_total strLe_trans _
  have hn : (dietKeys rs).Nodup :=
    ((stableSort_perm strLe _).nodup_iff).2 (firstSeen_spec _).1
  exact (hs.and hn).imp (fun h => ⟨h.1, h.2⟩)

/-- The diet keys are exactly the diet types occurring in the records. -/
theorem mem_dietKeys (rs : List Recipe) (d : String) :
    d ∈ dietKeys rs ↔ ∃ r ∈ rs, r.diet_type = d := by
  unfold dietKeys
  rw [(stableSort_perm strLe _).mem_iff, (firstSeen_spec _).2 d]
  simp

/-- Stable insertion into a presentation-ordered list, when every element
already present has a strictly smaller key than the inserted one. -/
theorem insertSorted_groupOrder (x : String × (Rat × Rat × Rat))
    (l : List (String × (Rat × Rat × Rat)))
    (hT : l.Pairwise GroupOrder) (hx : ∀ y ∈ l, keyLt y.1 x.1) :
    (insertSorted (fun a b => decide (b.2.1 ≤ a.2.1)) x l).Pairwise GroupOrder := by
  induction l with
  | nil => simp [insertSorted]
  | cons y ys ih =>
    rcases List.pairwise_cons.1 hT with ⟨hy, hys⟩
    simp only [insertSorted]
    split_ifs with hle
    · have hle' : x.2.1 ≤ y.2.1 := of_decide_eq_true hle
      refine List.pairwise_cons.2
        ⟨?_, ih hys (fun z hz => hx z (List.mem_cons_of_mem y hz))⟩
      intro z hz
      rcases (mem_insertSorted _ x ys z).1 hz with rfl | hz'
      · exact ⟨hle', fun _ => hx y (List.mem_cons_self y ys)⟩
      · exact hy z hz'
    · have hlt : y.2.1 < x.2.1 :=
        lt_of_not_le (fun hc => hle (decide_eq_true hc))
      refine List.pairwise_cons.2 ⟨?_, hT⟩
      intro z hz
      rcases List.mem_cons.1 hz with rfl | hz'
      · exact ⟨le_of_lt hlt, fun heq => absurd heq.symm (ne_of_lt hlt)⟩
      · refine ⟨le_of_lt (lt_of_le_of_lt (hy z hz').1 hlt), fun heq => ?_⟩
        exact absurd heq.symm (ne_of_lt (lt_of_le_of_lt (hy z hz').1 hlt))

/-- Folding stable insertions over a key-increasing table yields the
presentation order. -/
theorem foldl_insert_groupOrder (l : List (String × (Rat × Rat × Rat))) :
    ∀ acc : List (String × (Rat × Rat × Rat)),
      acc.Pairwise GroupOrder →
      (∀ x ∈ l, ∀ y ∈ acc, keyLt y.1 x.1) →
      l.Pairwise (fun a b => keyLt a.1 b.1) →
      (l.foldl (fun acc x =>
        insertSorted (fun a b => decide (b.2.1 ≤ a.2.1)) x acc) acc).Pairwise GroupOrder := by
  induction l with
  | nil => intro acc h _ _; simpa using h
  | cons x xs ih =>
    intro acc hacc hrel hpair
    rw [List.foldl_cons]
    rcases List.pairwise_cons.1 hpair with ⟨hx, hxs⟩
    refine ih _ ?_ ?_ hxs
    · exact insertSorted_groupOrder x acc hacc
        (fun y hy => hrel x (List.mem_cons_self x xs) y hy)
    · intro x' hx' y hy
      rcases (mem_insertSorted _ x acc y).1 hy with rfl | hy'
      · exact hx x' hx'
      · exact hrel x' (List.mem_cons_of_mem x hx') y hy'

/-- C6 counterexample: with diet types first seen in the order `b`, `a`
and equal mean protein, `groupMeans` lists `a` before `b` (grouping sorts
keys alphabetically), while the spec's first-seen tie-break would list `b`
first. -/
theorem groupMeans_tiebreak_counterexample :
    groupMeans tieRecipes = [("a", ((5 : Rat), (0 : Rat), (0 : Rat))), ("b", (5, 0, 0))] ∧
    groupMeansSpecOrdered tieRecipes = [("b", ((5 : Rat), (0 : Rat), (0 : Rat))), ("a", (5, 0, 0))] ∧
    groupMeans tieRecipes ≠ groupMeansSpecOrdered tieRecipes := by
  have h1 : groupMeans tieRecipes =
      [("a", ((5 : Rat), (0 : Rat), (0 : Rat))), ("b", (5, 0, 0))] := by
    simp [groupMeans, dietKeys, firstSeen, groupMean, stableSort, insertSorted,
      strLe, lexLe, tieRecipes]
  have h2 : groupMeansSpecOrdered tieRecipes =
      [("b", ((5 : Rat), (0 : Rat), (0 : Rat))), ("a", (5, 0, 0))] := by
    simp [groupMeansSpecOrdered, firstSeen, groupMean, stableSort, insertSorted, tieRecipes]
  refine ⟨h1, h2, ?_⟩
  rw [h1, h2]
  simp

/-- C6 amended: `groupMeans` groups records by diet type (one group per
occurring diet type), computes the arithmetic mean of each macro per
group, and returns the groups sorted by descending mean protein; among
groups with equal mean protein the order is ascending by diet-type name
(pandas sorts the group keys), not first-seen order. -/
theorem groupMeans_sorted (rs : List Recipe) :
    (groupMeans rs).Pairwise GroupOrder ∧
    (groupMeans rs).Perm ((dietKeys rs).map (fun d => (d, groupMean rs d))) ∧
    (∀ d, d ∈ dietKeys rs ↔ ∃ r ∈ rs, r.diet_type = d) ∧
    (dietKeys rs).Nodup := by
  have hpair : ((dietKeys rs).map (fun d => (d, groupMean rs d))).Pairwise
      (fun a b => keyLt a.1 b.1) := by
    rw [List.pairwise_map]
    exact dietKeys_pairwise rs
  refine ⟨?_, ?_, fun d => mem_dietKeys rs d,
    (dietKeys_pairwise rs).imp (fun h => h.2)⟩
  · exact foldl_insert_groupOrder _ [] (by simp) (by simp) hpair
  · exact stableSort_perm _ _

end DietAnalysis
